import Mathlib

/-!
# Verification of the o1vm legacy trace builder

Shallow embedding of `o1vm/src/legacy/trace.rs`: the `Trace` /
`DecomposedTrace` data model, the `Tracer` / `DecomposableTracer`
row-filling and padding operations, and the `Foldable` conversion
(`to_folding_pair`, `folding_constraints`).

Modelling conventions:
* Field elements are an abstract type `F` (with `Zero`/`One` where the
  code uses `F::zero()` / `F::one()`); concrete checks instantiate `F := Int`.
* A witness of `N` columns (`Witness<N, Vec<F>>`) is modelled as a function
  `Nat → List F`; the operations, exactly like the Rust code, only ever
  touch indices `< N` (resp. `< N_REL`), and `init` sets every column empty,
  so indices `≥ N` stay empty throughout.
* A relation row `[F; N_REL]` is modelled as a function `Nat → F`, read at
  indices `< N_REL` only.
* `Vec::with_capacity(domain_size)` fixes each column's capacity at
  `domain_size`; `push_row`'s guard `len < capacity` is therefore modelled
  as `len < domain_size`.
* A Rust panic (failed `assert!`, out-of-bounds index, `unwrap()` on a
  missing BTreeMap key) is modelled by returning `none`.
-/

namespace TraceRS

variable {F E L E2 : Type}

/-- Embeds `Trace<N, C>`: domain size, the `N` witness columns, the
constraint expressions and the lookups of one sub-circuit.  Constraint and
lookup expressions are abstract types `E` and `L`. -/
structure Trace (F E L : Type) where
  domain_size : Nat
  witness : Nat → List F
  constraints : List E
  lookups : List L

/-- Embeds `Tracer::init` for the single `Trace` (both the keccak and the
mips impl): every column starts as an empty vector of capacity
`domain_size`; constraints and lookups are taken from the interpreter
(external, hence parameters here). -/
def Trace.init (ds : Nat) (cs : List E) (ls : List L) : Trace F E L :=
  { domain_size := ds, witness := fun _ => [], constraints := cs, lookups := ls }

/-- One iteration of the `push_row` loop body
(`if cols[i].len() < cols[i].capacity() { cols[i].push(value) }`). -/
def Trace.pushCol (t : Trace F E L) (i : Nat) (v : F) : Trace F E L :=
  if (t.witness i).length < t.domain_size then
    { t with witness := Function.update t.witness i (t.witness i ++ [v]) }
  else t

/-- Embeds `Tracer::push_row` for the single `Trace` (keccak and mips impls
are identical): loop over the `N_REL` entries of `row`, pushing each to its
column when below capacity. -/
def Trace.push_row (nrel : Nat) (t : Trace F E L) (row : Nat → F) : Trace F E L :=
  (List.range nrel).foldl (fun acc i => acc.pushCol i (row i)) t

/-- Embeds `Tracer::pad_with_row` for the single `Trace`:
`assert!(len <= domain_size)` (panic modelled as `none`), then push `row`
`domain_size - len` times and return that count. -/
def Trace.pad_with_row (nrel : Nat) (t : Trace F E L) (row : Nat → F) :
    Option (Trace F E L × Nat) :=
  if (t.witness 0).length ≤ t.domain_size then
    some ((fun s => Trace.push_row nrel s row)^[t.domain_size - (t.witness 0).length] t,
      t.domain_size - (t.witness 0).length)
  else none

/-- Embeds `Tracer::pad_with_zeros` for the single `Trace`: after the same
assertion, extend every one of the `N` columns with
`domain_size - len` zeros. -/
def Trace.pad_with_zeros [Zero F] (N : Nat) (t : Trace F E L) :
    Option (Trace F E L × Nat) :=
  if (t.witness 0).length ≤ t.domain_size then
    some ({ t with witness := fun i =>
        if i < N then t.witness i ++ List.replicate (t.domain_size - (t.witness 0).length) 0
        else t.witness i },
      t.domain_size - (t.witness 0).length)
  else none

/-- Embeds `Tracer::pad_dummy` for the single `Trace`:
`let row = array::from_fn(|i| self.witness.cols[i][0])` reads index 0 of
each of the `N_REL` relation columns (out-of-bounds panic on an empty
column modelled as `none`), then delegates to `pad_with_row`. -/
def Trace.pad_dummy [Inhabited F] (nrel : Nat) (t : Trace F E L) :
    Option (Trace F E L × Nat) :=
  if (List.range nrel).all (fun i => !(t.witness i).isEmpty) then
    t.pad_with_row nrel (fun i => (t.witness i).headI)
  else none

/-- Embeds the effect of `DecomposedTrace::reset` on one sub-trace's
witness: every column is cleared (`for_each(Vec::clear)`). -/
def Trace.resetWitness (t : Trace F E L) : Trace F E L :=
  { t with witness := fun _ => [] }

/-- Embeds the effect of `DecomposedTrace::set_selector_column` on the
selected sub-trace's witness: every column `i` in `[N_REL, N)` is extended
with `k` ones if `i` equals the selector's column index (the Rust
`usize::from(selector)`) and `k` zeros otherwise. -/
def Trace.setSelectorCols [Zero F] [One F] (nrel N selIdx k : Nat) (t : Trace F E L) :
    Trace F E L :=
  { t with witness := fun i =>
      if nrel ≤ i ∧ i < N then
        t.witness i ++ List.replicate k (if i = selIdx then (1 : F) else 0)
      else t.witness i }

/-- Embeds `DecomposedTrace<N, C>`: the shared domain size plus the
`BTreeMap<C::Selector, Trace<N, C>>`.  The selector type `C::Selector`
(finite, totally ordered, densely enumerable) is modelled as `Fin S`; the
map is modelled as a partial function, `none` standing for an absent key
(whose lookup through `Index`/`get_mut(..).unwrap()` panics). -/
structure DecomposedTrace (S : Nat) (F E L : Type) where
  domain_size : Nat
  trace : Fin S → Option (Trace F E L)

variable {S : Nat}

/-- Embeds `DecomposedTrace::number_of_rows`: the length of relation
column 0 of the selector's sub-trace (`none` models the `Index` panic on an
absent key). -/
def DecomposedTrace.number_of_rows (d : DecomposedTrace S F E L) (s : Fin S) : Option Nat :=
  (d.trace s).map fun t => (t.witness 0).length

/-- Embeds `DecomposedTrace::in_circuit`: `number_of_rows(s) != 0`. -/
def DecomposedTrace.in_circuit (d : DecomposedTrace S F E L) (s : Fin S) : Option Bool :=
  (d.number_of_rows s).map fun n => n != 0

/-- Embeds `DecomposedTrace::is_full`: `domain_size == number_of_rows(s)`. -/
def DecomposedTrace.is_full (d : DecomposedTrace S F E L) (s : Fin S) : Option Bool :=
  (d.number_of_rows s).map fun n => d.domain_size == n

/-- Embeds `DecomposedTrace::reset`: clears every witness column of the
selector's sub-trace, leaving constraints and lookups untouched. -/
def DecomposedTrace.reset (d : DecomposedTrace S F E L) (s : Fin S) :
    Option (DecomposedTrace S F E L) :=
  (d.trace s).map fun t =>
    { d with trace := Function.update d.trace s (some t.resetWitness) }

/-- Embeds `DecomposedTrace::set_selector_column::<N_REL>`: loops `i` over
`[N_REL, N)` extending column `i` of the selected sub-trace with ones when
`i == usize::from(selector)` and zeros otherwise.  `toIdx` stands for the
external `usize: From<C::Selector>` conversion. -/
def DecomposedTrace.set_selector_column [Zero F] [One F] (nrel N : Nat)
    (toIdx : Fin S → Nat) (d : DecomposedTrace S F E L) (s : Fin S) (k : Nat) :
    Option (DecomposedTrace S F E L) :=
  (d.trace s).map fun t =>
    { d with trace := Function.update d.trace s (some (t.setSelectorCols nrel N (toIdx s) k)) }

/-- Modelled from the spec: the `usize: From<Selector>` conversions live in
`interpreters/keccak/column.rs` and `interpreters/mips/column.rs`, which are
not part of the sources at hand.  The spec says selectors convert to a dense
index in `[0, N_SEL)` and that the selector's own column sits at
`N_REL + index_of(s)`, so the converted value is `N_REL + s`. -/
def selectorIndex (nrel : Nat) (s : Fin S) : Nat := nrel + s.val

/-- Embeds the generic `Tracer::init` for `DecomposedTrace` /
`DecomposableTracer::new` (keccak and mips are identical up to the selector
enumeration): every selector is inserted with an `init`ialized sub-trace,
whose constraints/lookups come from the external interpreter. -/
def DecomposedTrace.new (S ds : Nat) (cs : Fin S → List E) (ls : Fin S → List L) :
    DecomposedTrace S F E L :=
  { domain_size := ds, trace := fun s => some (Trace.init ds (cs s) (ls s)) }

/-- Embeds the generic `Tracer::push_row` for `DecomposedTrace`:
`self.trace.get_mut(&selector).unwrap().push_row((), row)`. -/
def DecomposedTrace.push_row (nrel : Nat) (d : DecomposedTrace S F E L) (s : Fin S)
    (row : Nat → F) : Option (DecomposedTrace S F E L) :=
  (d.trace s).map fun t =>
    { d with trace := Function.update d.trace s (some (t.push_row nrel row)) }

/-- Embeds the generic `Tracer::pad_with_row` for `DecomposedTrace`:
return 0 untouched when `!in_circuit(selector)` (which itself panics on an
absent key), else delegate to the sub-trace's `pad_with_row`. -/
def DecomposedTrace.pad_with_row (nrel : Nat) (d : DecomposedTrace S F E L) (s : Fin S)
    (row : Nat → F) : Option (DecomposedTrace S F E L × Nat) :=
  match d.trace s with
  | none => none
  | some t =>
    if (t.witness 0).length ≠ 0 then
      (t.pad_with_row nrel row).map fun p =>
        ({ d with trace := Function.update d.trace s (some p.1) }, p.2)
    else some (d, 0)

/-- Embeds the generic `Tracer::pad_with_zeros` for `DecomposedTrace`. -/
def DecomposedTrace.pad_with_zeros [Zero F] (N : Nat) (d : DecomposedTrace S F E L)
    (s : Fin S) : Option (DecomposedTrace S F E L × Nat) :=
  match d.trace s with
  | none => none
  | some t =>
    if (t.witness 0).length ≠ 0 then
      (t.pad_with_zeros N).map fun p =>
        ({ d with trace := Function.update d.trace s (some p.1) }, p.2)
    else some (d, 0)

/-- Embeds the generic `Tracer::pad_dummy` for `DecomposedTrace`: the
empty-witness guard (`if !self.in_circuit(selector) { 0 }`) lives here, not
in the single-table `pad_dummy`. -/
def DecomposedTrace.pad_dummy [Inhabited F] (nrel : Nat) (d : DecomposedTrace S F E L)
    (s : Fin S) : Option (DecomposedTrace S F E L × Nat) :=
  match d.trace s with
  | none => none
  | some t =>
    if (t.witness 0).length ≠ 0 then
      (t.pad_dummy nrel).map fun p =>
        ({ d with trace := Function.update d.trace s (some p.1) }, p.2)
    else some (d, 0)

namespace keccak

/-- Embeds the keccak `DecomposableTracer::pad_witnesses`: for every step
in enumeration order, pad the sub-trace via the single-table `pad_dummy`
only `if self.in_circuit(opcode)`. -/
def pad_witnesses [Inhabited F] (nrel : Nat) (d : DecomposedTrace S F E L) :
    Option (DecomposedTrace S F E L) :=
  (List.finRange S).foldlM (fun (acc : DecomposedTrace S F E L) s =>
    match acc.trace s with
    | none => none
    | some t =>
      if (t.witness 0).length ≠ 0 then
        (t.pad_dummy nrel).map fun p =>
          { acc with trace := Function.update acc.trace s (some p.1) }
      else some acc) d

end keccak

namespace mips

/-- Embeds the mips `DecomposableTracer::pad_witnesses`: for every
instruction in enumeration order,
`self.trace.get_mut(&opcode).unwrap().pad_dummy(())` — with no
`in_circuit` guard, unlike the keccak impl. -/
def pad_witnesses [Inhabited F] (nrel : Nat) (d : DecomposedTrace S F E L) :
    Option (DecomposedTrace S F E L) :=
  (List.finRange S).foldlM (fun (acc : DecomposedTrace S F E L) s =>
    match acc.trace s with
    | none => none
    | some t =>
      (t.pad_dummy nrel).map fun p =>
        { acc with trace := Function.update acc.trace s (some p.1) }) d

end mips

/-- Modelled from the spec: the `Alphas` structure of the external folding
crate, "an alpha-powers structure seeded by alpha" (`Alphas::new(alpha)`).
Only the seed is observable here. -/
structure Alphas (F : Type) where
  seed : F

/-- Embeds `FoldingInstance`: the `N` first-chunk commitments in column
order, the three challenges `[beta, gamma, joint_combiner]`, the alphas and
the blinder. -/
structure FoldingInstance (G F : Type) where
  commitments : List G
  challenges : F × F × F
  alphas : Alphas F
  blinder : F

/-- Embeds `FoldingWitness`: the `N` per-column evaluation tables.
`Evaluations::from_vec_and_domain(w.to_vec(), domain)` stores the column's
values unchanged (one evaluation per stored row), so a table is the
column's list of values. -/
structure FoldingWitness (F : Type) where
  witness : Nat → List F

variable {Sg Comm G : Type}

/-- Embeds `Foldable::to_folding_pair` for `DecomposedTrace`.  The external
collaborators are parameters: `absorb_commitment` and `challenge` are the
sponge operations (the sponge state `Sg` is threaded explicitly in place of
`&mut Sponge`), `commit_evaluations` is
`srs.commit_evaluations_non_hiding(domain, ·)` and `get_first_chunk` is
`PolyComm::get_first_chunk`.  Steps, in code order: build the evaluation
tables of `self[selector]` (the `Index` panic on an absent key is `none`),
commit to each column, absorb the commitments in column order, reduce them
to first chunks, draw `beta`, `gamma`, `joint_combiner`, `alpha`, and
assemble the instance with blinder `one()`.  The final sponge state is
returned alongside, standing for the mutation of `fq_sponge`. -/
def DecomposedTrace.to_folding_pair [One F] (N : Nat)
    (absorb_commitment : Sg → Comm → Sg) (challenge : Sg → F × Sg)
    (commit_evaluations : List F → Comm) (get_first_chunk : Comm → G)
    (d : DecomposedTrace S F E L) (s : Fin S) (fq_sponge : Sg) :
    Option (FoldingInstance G F × FoldingWitness F × Sg) :=
  match d.trace s with
  | none => none
  | some t =>
    let folding_witness : FoldingWitness F := { witness := fun i => t.witness i }
    let commitments : List Comm :=
      (List.range N).map fun i => commit_evaluations (folding_witness.witness i)
    let sp1 := commitments.foldl absorb_commitment fq_sponge
    let firstChunks : List G := commitments.map get_first_chunk
    let beta := challenge sp1
    let gamma := challenge beta.2
    let joint_combiner := challenge gamma.2
    let alpha := challenge joint_combiner.2
    some ({ commitments := firstChunks,
            challenges := (beta.1, gamma.1, joint_combiner.1),
            alphas := { seed := alpha.1 },
            blinder := 1 },
          folding_witness, alpha.2)

/-- Embeds `Foldable::folding_constraints` for `DecomposedTrace`: for every
selector present in the map, rewrite each stored constraint through
`FoldingCompatibleExpr::from` (the external transform, parameter
`toFolding`).  The returned `BTreeMap` is modelled, like `trace`, as a
partial function on selectors. -/
def DecomposedTrace.folding_constraints (toFolding : E → E2)
    (d : DecomposedTrace S F E L) : Fin S → Option (List E2) :=
  fun s => (d.trace s).map fun t => t.constraints.map toFolding

/-- The operations that can hit one sub-trace's witness during its
lifecycle (§4.1–§4.2 of the trace module): `push_row`, the three padding
operations, the selector-column write of `set_selector_column`, and
`reset`. -/
inductive TraceOp (F : Type) where
  | push (row : Nat → F)
  | padRow (row : Nat → F)
  | padZeros
  | padDummy
  | setSel (selIdx k : Nat)
  | resetCols

/-- One lifecycle step on a sub-trace (`none` models a panic). -/
def traceStep [Zero F] [One F] [Inhabited F] (nrel N : Nat) (t : Trace F E L) :
    TraceOp F → Option (Trace F E L)
  | TraceOp.push row => some (t.push_row nrel row)
  | TraceOp.padRow row => (t.pad_with_row nrel row).map Prod.fst
  | TraceOp.padZeros => (t.pad_with_zeros N).map Prod.fst
  | TraceOp.padDummy => (t.pad_dummy nrel).map Prod.fst
  | TraceOp.setSel j k => some (t.setSelectorCols nrel N j k)
  | TraceOp.resetCols => some t.resetWitness

/-- Run a sequence of lifecycle steps. -/
def runOps [Zero F] [One F] [Inhabited F] (nrel N : Nat) :
    Trace F E L → List (TraceOp F) → Option (Trace F E L)
  | t, [] => some t
  | t, op :: ops =>
    match traceStep nrel N t op with
    | none => none
    | some u => runOps nrel N u ops

/-- All relation columns (indices `< N_REL`) have equal length. -/
def relColsEqLen (nrel : Nat) (t : Trace F E L) : Prop :=
  ∀ i j, i < nrel → j < nrel → (t.witness i).length = (t.witness j).length

/-! ## Concrete instances (used by the closed checks below)

`F := Int`, constraints and lookups instantiated with `Nat`/`Unit`. -/

/-- A sub-trace of domain size 2 and `N_REL = 1` holding one pushed row. -/
def tOneRow : Trace Int Unit Unit := (Trace.init 2 [] []).push_row 1 (fun _ => 3)

/-- A decomposed trace (`N = 2`, `N_REL = 1`, two selectors, domain size 2)
in which selector 0 was pushed once and selector 1 never. -/
def dOneUsed : DecomposedTrace 2 Int Unit Unit :=
  { domain_size := 2, trace := fun s => if s = 0 then some tOneRow else some (Trace.init 2 [] []) }

/-- A sub-trace (`N_REL = 2`, domain size 1) whose relation column 0 is
still below capacity and whose relation column 1 is at capacity. -/
def tMixed : Trace Int Unit Unit :=
  { domain_size := 1, witness := fun i => if i = 1 then [7] else [],
    constraints := [], lookups := [] }

/-- A sub-trace (`N_REL = 1`, domain size 2) with one stored row. -/
def tHalf : Trace Int Unit Unit :=
  { domain_size := 2, witness := fun i => if i = 0 then [4] else [],
    constraints := [], lookups := [] }

/-- A one-selector decomposed trace around `tHalf`. -/
def dHalf : DecomposedTrace 1 Int Unit Unit :=
  { domain_size := 2, trace := fun _ => some tHalf }

/-- A two-selector decomposed trace with empty sub-traces, domain size 4. -/
def dEmpty2 : DecomposedTrace 2 Int Unit Unit :=
  { domain_size := 4, trace := fun _ => some (Trace.init 4 [] []) }

/-- A full sub-trace (`N_REL = 1`, domain size 1): every column holds one
entry. -/
def tFull : Trace Int Unit Unit :=
  { domain_size := 1, witness := fun _ => [3], constraints := [], lookups := [] }

/-- A one-selector decomposed trace around a single-row sub-trace of
domain size 4 (so the sub-trace is not full). -/
def tQuarter : Trace Int Unit Unit :=
  { domain_size := 4, witness := fun _ => [3], constraints := [], lookups := [] }

/-- One-selector decomposed trace around `tQuarter`. -/
def dQuarter : DecomposedTrace 1 Int Unit Unit :=
  { domain_size := 4, trace := fun _ => some tQuarter }

/-- A one-selector decomposed trace whose only sub-trace was never pushed
to but carries one constraint (`E := Nat`). -/
def dNeverPushed : DecomposedTrace 1 Int Nat Unit :=
  { domain_size := 4, trace := fun _ => some (Trace.init 4 [7] []) }

/-- A one-selector decomposed trace around an empty sub-trace
(`N_REL = 1`, domain size 2). -/
def dEmpty1 : DecomposedTrace 1 Int Unit Unit :=
  { domain_size := 2, trace := fun _ => some (Trace.init 2 [] []) }

/-! ## Helper lemmas: `pushCol` and `push_row` -/

theorem pushCol_domain_size (t : Trace F E L) (i : Nat) (v : F) :
    (t.pushCol i v).domain_size = t.domain_size := by
  unfold Trace.pushCol
  split <;> rfl

theorem pushCol_witness_ne (t : Trace F E L) (i j : Nat) (v : F) (h : j ≠ i) :
    (t.pushCol i v).witness j = t.witness j := by
  unfold Trace.pushCol
  split
  · exact Function.update_noteq h _ _
  · rfl

theorem pushCol_witness_self (t : Trace F E L) (i : Nat) (v : F) :
    (t.pushCol i v).witness i =
      if (t.witness i).length < t.domain_size then t.witness i ++ [v]
      else t.witness i := by
  unfold Trace.pushCol
  split
  · simp [Function.update_same]
  · rfl

theorem foldl_pushCol_domain_size (row : Nat → F) :
    ∀ (l : List Nat) (t : Trace F E L),
      ((l.foldl (fun acc i => acc.pushCol i (row i)) t)).domain_size = t.domain_size := by
  intro l
  induction l with
  | nil => intro t; rfl
  | cons j l ih =>
    intro t
    simp only [List.foldl_cons]
    rw [ih, pushCol_domain_size]

theorem foldl_pushCol_not_mem (row : Nat → F) :
    ∀ (l : List Nat) (t : Trace F E L) (i : Nat), i ∉ l →
      ((l.foldl (fun acc i => acc.pushCol i (row i)) t)).witness i = t.witness i := by
  intro l
  induction l with
  | nil => intro t i _; rfl
  | cons j l ih =>
    intro t i hi
    simp only [List.mem_cons, not_or] at hi
    simp only [List.foldl_cons]
    rw [ih _ i hi.2, pushCol_witness_ne _ _ _ _ hi.1]

theorem foldl_pushCol_mem (row : Nat → F) :
    ∀ (l : List Nat), l.Nodup → ∀ (t : Trace F E L) (i : Nat), i ∈ l →
      ((l.foldl (fun acc i => acc.pushCol i (row i)) t)).witness i =
        if (t.witness i).length < t.domain_size then t.witness i ++ [row i]
        else t.witness i := by
  intro l
  induction l with
  | nil => intro _ t i hi; exact absurd hi (List.not_mem_nil i)
  | cons j l ih =>
    intro hnd t i hi
    rw [List.nodup_cons] at hnd
    simp only [List.foldl_cons]
    rcases List.mem_cons.mp hi with rfl | hmem
    · rw [foldl_pushCol_not_mem row l _ i hnd.1, pushCol_witness_self]
    · have hij : i ≠ j := fun h => hnd.1 (h ▸ hmem)
      rw [ih hnd.2 _ i hmem, pushCol_witness_ne _ _ _ _ hij, pushCol_domain_size]

/-- Per-column characterization of `push_row`: a relation column below
capacity receives `row[i]`; a relation column at capacity is silently left
unchanged; columns outside `[0, N_REL)` are never touched. -/
theorem push_row_witness (nrel : Nat) (t : Trace F E L) (row : Nat → F) (i : Nat) :
    (t.push_row nrel row).witness i =
      if i < nrel ∧ (t.witness i).length < t.domain_size then t.witness i ++ [row i]
      else t.witness i := by
  unfold Trace.push_row
  by_cases hi : i < nrel
  · rw [foldl_pushCol_mem row _ (List.nodup_range nrel) t i (List.mem_range.mpr hi)]
    simp [hi]
  · rw [foldl_pushCol_not_mem row _ t i (fun h => hi (List.mem_range.mp h))]
    simp [hi]

theorem push_row_domain_size (nrel : Nat) (t : Trace F E L) (row : Nat → F) :
    (t.push_row nrel row).domain_size = t.domain_size :=
  foldl_pushCol_domain_size row _ t

theorem push_row_constraints (nrel : Nat) (t : Trace F E L) (row : Nat → F) :
    (t.push_row nrel row).constraints = t.constraints := by
  unfold Trace.push_row
  generalize List.range nrel = l
  induction l generalizing t with
  | nil => rfl
  | cons j l ih =>
    simp only [List.foldl_cons]
    rw [ih]
    unfold Trace.pushCol
    split <;> rfl

/-! ## Helper lemmas: iterated `push_row` and the padding operations -/

theorem iterate_push_row_domain_size (nrel : Nat) (row : Nat → F) :
    ∀ (k : Nat) (t : Trace F E L),
      ((fun s => Trace.push_row nrel s row)^[k] t).domain_size = t.domain_size := by
  intro k
  induction k with
  | zero => intro t; rfl
  | succ k ih =>
    intro t
    rw [Function.iterate_succ_apply, ih, push_row_domain_size]

/-- Iterating `push_row` `k` times on a trace whose relation columns all
have length `L` with `L + k ≤ domain_size` appends `row[i]` exactly `k`
times to every relation column and leaves every other column unchanged. -/
theorem iterate_push_row_witness (nrel : Nat) (row : Nat → F) :
    ∀ (k : Nat) (t : Trace F E L) (L : Nat),
      (∀ i, i < nrel → (t.witness i).length = L) → L + k ≤ t.domain_size →
      ∀ i, ((fun s => Trace.push_row nrel s row)^[k] t).witness i =
        if i < nrel then t.witness i ++ List.replicate k (row i) else t.witness i := by
  intro k
  induction k with
  | zero =>
    intro t L _ _ i
    simp
  | succ k ih =>
    intro t L hL hle i
    rw [Function.iterate_succ_apply]
    have hlt : L < t.domain_size := by omega
    have hL1 : ∀ j, j < nrel → ((t.push_row nrel row).witness j).length = L + 1 := by
      intro j hj
      rw [push_row_witness]
      simp [hj, hL j hj, hlt]
    have hle1 : (L + 1) + k ≤ (t.push_row nrel row).domain_size := by
      rw [push_row_domain_size]; omega
    rw [ih (t.push_row nrel row) (L + 1) hL1 hle1 i]
    by_cases hi : i < nrel
    · simp only [hi, if_true]
      rw [push_row_witness]
      simp only [hi, hL i hi, hlt, and_self, if_true]
      rw [List.append_assoc]
      rfl
    · simp only [hi, if_false]
      rw [push_row_witness]
      simp [hi]

/-- Specification of the single-table `pad_with_row` on a trace whose
relation columns all have length `L ≤ domain_size` (and `0 < N_REL`, so
that column 0, the row counter, is a relation column): it returns
`domain_size - L`, appends `row` that many times to every relation column
and leaves all other columns unchanged. -/
theorem pad_with_row_spec (nrel : Nat) (t : Trace F E L) (row : Nat → F) (L : Nat)
    (h0 : 0 < nrel) (hL : ∀ i, i < nrel → (t.witness i).length = L)
    (hle : L ≤ t.domain_size) :
    ∃ u, t.pad_with_row nrel row = some (u, t.domain_size - L) ∧
      u.domain_size = t.domain_size ∧
      (∀ i, u.witness i =
        if i < nrel then t.witness i ++ List.replicate (t.domain_size - L) (row i)
        else t.witness i) := by
  have h0len : (t.witness 0).length = L := hL 0 h0
  refine ⟨(fun s => Trace.push_row nrel s row)^[t.domain_size - L] t, ?_, ?_, ?_⟩
  · unfold Trace.pad_with_row
    rw [h0len, if_pos hle]
  · exact iterate_push_row_domain_size nrel row _ t
  · exact iterate_push_row_witness nrel row _ t L hL (by omega)

theorem push_row_preserves_relEq (nrel : Nat) (t : Trace F E L) (row : Nat → F)
    (heq : ∀ i j, i < nrel → j < nrel → (t.witness i).length = (t.witness j).length) :
    ∀ i j, i < nrel → j < nrel →
      ((t.push_row nrel row).witness i).length = ((t.push_row nrel row).witness j).length := by
  intro i j hi hj
  rw [push_row_witness, push_row_witness]
  have hij := heq i j hi hj
  by_cases hlen : (t.witness i).length < t.domain_size
  · simp [hi, hj, hlen, hij ▸ hlen, hij]
  · simp [hi, hj, hlen, hij ▸ hlen, hij]

theorem iterate_push_row_preserves_relEq (nrel : Nat) (row : Nat → F) :
    ∀ (m : Nat) (t : Trace F E L),
      (∀ i j, i < nrel → j < nrel → (t.witness i).length = (t.witness j).length) →
      ∀ i j, i < nrel → j < nrel →
        (((fun s => Trace.push_row nrel s row)^[m] t).witness i).length =
          (((fun s => Trace.push_row nrel s row)^[m] t).witness j).length := by
  intro m
  induction m with
  | zero => intro t heq; exact heq
  | succ m ih =>
    intro t heq
    rw [Function.iterate_succ_apply]
    exact ih _ (push_row_preserves_relEq nrel t row heq)

theorem pad_with_row_preserves_relEq (nrel : Nat) (t u : Trace F E L) (row : Nat → F)
    (k : Nat) (h : t.pad_with_row nrel row = some (u, k))
    (heq : ∀ i j, i < nrel → j < nrel → (t.witness i).length = (t.witness j).length) :
    ∀ i j, i < nrel → j < nrel → (u.witness i).length = (u.witness j).length := by
  unfold Trace.pad_with_row at h
  split at h
  · have hu : u = (fun s => Trace.push_row nrel s row)^[t.domain_size - (t.witness 0).length] t :=
      (congrArg Prod.fst (Option.some_inj.mp h)).symm
    subst hu
    exact iterate_push_row_preserves_relEq nrel row _ t heq
  · exact absurd h (by simp)

/-! ## The relation-column equal-length invariant -/

theorem traceStep_preserves_relColsEqLen [Zero F] [One F] [Inhabited F]
    {nrel N : Nat} {t u : Trace F E L} {op : TraceOp F} (hN : nrel ≤ N)
    (heq : relColsEqLen nrel t) (h : traceStep nrel N t op = some u) :
    relColsEqLen nrel u := by
  cases op with
  | push row =>
    have hu : u = t.push_row nrel row := (Option.some_inj.mp h).symm
    subst hu
    exact push_row_preserves_relEq nrel t row heq
  | padRow row =>
    simp only [traceStep, Option.map_eq_some'] at h
    obtain ⟨p, hp, rfl⟩ := h
    exact pad_with_row_preserves_relEq nrel t p.1 row p.2 (by rw [hp]) heq
  | padZeros =>
    simp only [traceStep, Trace.pad_with_zeros] at h
    split at h
    · simp only [Option.map_some', Option.some_inj] at h
      subst h
      intro i j hi hj
      simp only [hi, hj, Nat.lt_of_lt_of_le hi hN, Nat.lt_of_lt_of_le hj hN, and_self,
        if_true, List.length_append, List.length_replicate]
      rw [heq i j hi hj]
    · exact absurd h (by simp)
  | padDummy =>
    simp only [traceStep, Trace.pad_dummy] at h
    split at h
    · simp only [Option.map_eq_some'] at h
      obtain ⟨p, hp, rfl⟩ := h
      exact pad_with_row_preserves_relEq nrel t p.1 _ p.2 (by rw [hp]) heq
    · exact absurd h (by simp)
  | setSel j k =>
    have hu : u = t.setSelectorCols nrel N j k := (Option.some_inj.mp h).symm
    subst hu
    intro a b ha hb
    simp only [Trace.setSelectorCols]
    rw [if_neg (by omega), if_neg (by omega)]
    exact heq a b ha hb
  | resetCols =>
    have hu : u = t.resetWitness := (Option.some_inj.mp h).symm
    subst hu
    intro a b _ _
    rfl

theorem runOps_preserves_relColsEqLen [Zero F] [One F] [Inhabited F]
    {nrel N : Nat} (hN : nrel ≤ N) :
    ∀ (ops : List (TraceOp F)) (t u : Trace F E L), relColsEqLen nrel t →
      runOps nrel N t ops = some u → relColsEqLen nrel u := by
  intro ops
  induction ops with
  | nil =>
    intro t u heq h
    have : u = t := (Option.some_inj.mp h).symm
    subst this
    exact heq
  | cons op ops ih =>
    intro t u heq h
    unfold runOps at h
    revert h
    match hstep : traceStep nrel N t op with
    | none => intro h; exact absurd h (by simp)
    | some v =>
      intro h
      exact ih v u (traceStep_preserves_relColsEqLen hN heq hstep) h

/-! ## Claim C2 -/

/-- C2: for every `Trace` initialized with capacity `domain_size` and
every `push_row(row)` call, each relation column `i < N_REL` whose current
length is below `domain_size` receives `row[i]`, while a column that has
reached `domain_size` entries is left unchanged — the push to it is
silently dropped, no error is raised (`push_row` is total). -/
theorem push_row_appends_below_capacity_and_silently_drops_at_capacity
    (nrel : Nat) (t : Trace F E L) (row : Nat → F) (i : Nat) (hi : i < nrel) :
    (t.push_row nrel row).witness i =
      if (t.witness i).length < t.domain_size then t.witness i ++ [row i]
      else t.witness i := by
  rw [push_row_witness]
  simp [hi]

/-- Witness for C2 on `tMixed` (`N_REL = 2`, domain size 1): column 0
(below capacity) gains the pushed value, column 1 (at capacity) is
unchanged. -/
theorem push_row_appends_below_capacity_and_silently_drops_at_capacity_witness :
    (0 < 2 ∧ 1 < 2) ∧
    ((tMixed.push_row 2 (fun _ => 9)).witness 0 =
      if (tMixed.witness 0).length < tMixed.domain_size then tMixed.witness 0 ++ [9]
      else tMixed.witness 0) ∧
    ((tMixed.push_row 2 (fun _ => 9)).witness 1 =
      if (tMixed.witness 1).length < tMixed.domain_size then tMixed.witness 1 ++ [9]
      else tMixed.witness 1) :=
  ⟨by decide,
   push_row_appends_below_capacity_and_silently_drops_at_capacity 2 tMixed (fun _ => 9) 0
     (by decide),
   push_row_appends_below_capacity_and_silently_drops_at_capacity 2 tMixed (fun _ => 9) 1
     (by decide)⟩

/-! ## Claim C3 -/

/-- C3 counterexample: after `init` and a single `push_row` (with
`N = 2`, `N_REL = 1`, domain size 1) the relation column has length 1
while the selector column has length 0, so not all `N` witness columns
have equal length. -/
theorem all_columns_equal_length_cex :
    runOps 1 2 (Trace.init (F := Int) (E := Unit) (L := Unit) 1 [] [])
        [TraceOp.push (fun _ => 5)]
      = some ((Trace.init (F := Int) (E := Unit) (L := Unit) 1 [] []).push_row 1 (fun _ => 5)) ∧
    (((Trace.init (F := Int) (E := Unit) (L := Unit) 1 [] []).push_row 1
        (fun _ => 5)).witness 0).length = 1 ∧
    (((Trace.init (F := Int) (E := Unit) (L := Unit) 1 [] []).push_row 1
        (fun _ => 5)).witness 1).length = 0 ∧
    ¬ (((Trace.init (F := Int) (E := Unit) (L := Unit) 1 [] []).push_row 1
        (fun _ => 5)).witness 0).length =
      (((Trace.init (F := Int) (E := Unit) (L := Unit) 1 [] []).push_row 1
        (fun _ => 5)).witness 1).length :=
  ⟨rfl, by decide, by decide, by decide⟩

/-- C3 (amended): for every sub-trace obtained from `init` by any sequence
of `push_row`, `pad_with_row`, `pad_with_zeros`, `pad_dummy`,
`set_selector_column` and `reset` steps (with `N_REL ≤ N`), all `N_REL`
relation columns have equal length; the selector columns only catch up
when `set_selector_column` is invoked with the matching row count. -/
theorem relation_columns_equal_length_invariant [Zero F] [One F] [Inhabited F]
    (nrel N ds : Nat) (cs : List E) (ls : List L) (ops : List (TraceOp F))
    (u : Trace F E L) (hN : nrel ≤ N)
    (h : runOps nrel N (Trace.init ds cs ls) ops = some u) :
    relColsEqLen nrel u :=
  runOps_preserves_relColsEqLen hN ops _ u (fun _ _ _ _ => rfl) h

/-- Witness for C3 (amended): a push followed by dummy padding and a
selector-column write, with `N_REL = 1`, `N = 2`, domain size 2. -/
theorem relation_columns_equal_length_invariant_witness :
    (1 ≤ 2) ∧
    runOps 1 2 (Trace.init (F := Int) (E := Unit) (L := Unit) 2 [] [])
        [TraceOp.push (fun _ => 5)]
      = some ((Trace.init (F := Int) (E := Unit) (L := Unit) 2 [] []).push_row 1 (fun _ => 5)) ∧
    relColsEqLen 1
      ((Trace.init (F := Int) (E := Unit) (L := Unit) 2 [] []).push_row 1 (fun _ => 5)) :=
  ⟨by decide, rfl,
   relation_columns_equal_length_invariant 1 2 2 [] [] [TraceOp.push (fun _ => 5)] _
     (by decide) rfl⟩

/-! ## Claim C9 -/

/-- C9 counterexample: the empty sub-trace with `domain_size = 0` has row
count equal to `domain_size` (it is "full"), yet `pad_dummy` does not
return 0 leaving the columns unchanged — it panics reading row 0 of an
empty relation column (modelled as `none`). -/
theorem padding_idempotent_on_full_cex :
    ((Trace.init (F := Int) (E := Unit) (L := Unit) 0 [] []).witness 0).length
      = (Trace.init (F := Int) (E := Unit) (L := Unit) 0 [] []).domain_size ∧
    (Trace.init (F := Int) (E := Unit) (L := Unit) 0 [] []).pad_dummy 1 = none :=
  ⟨rfl, rfl⟩

/-- C9 (amended): on a sub-trace whose relation columns all have length
`domain_size`, with `domain_size > 0` (so that the full trace is
non-empty) and `0 < N_REL`, each of `pad_with_row`, `pad_with_zeros` and
`pad_dummy` returns 0 and leaves the trace — every column — unchanged. -/
theorem padding_idempotent_on_full [Zero F] [Inhabited F]
    (nrel N : Nat) (t : Trace F E L) (row : Nat → F)
    (h0 : 0 < nrel) (hpos : 0 < t.domain_size)
    (hfull : ∀ i, i < nrel → (t.witness i).length = t.domain_size) :
    t.pad_with_row nrel row = some (t, 0) ∧
    t.pad_with_zeros N = some (t, 0) ∧
    t.pad_dummy nrel = some (t, 0) := by
  have h0len : (t.witness 0).length = t.domain_size := hfull 0 h0
  have hrow : ∀ r : Nat → F, t.pad_with_row nrel r = some (t, 0) := by
    intro r
    unfold Trace.pad_with_row
    rw [h0len, if_pos (le_refl _), Nat.sub_self]
    rfl
  refine ⟨hrow row, ?_, ?_⟩
  · unfold Trace.pad_with_zeros
    rw [h0len, if_pos (le_refl _), Nat.sub_self]
    have hw : (fun i => if i < N then t.witness i ++ List.replicate 0 (0 : F)
        else t.witness i) = t.witness := by
      funext i
      split <;> simp
    cases t
    simp only at hw ⊢
    rw [hw]
  · unfold Trace.pad_dummy
    rw [if_pos, hrow]
    rw [List.all_eq_true]
    intro i hi
    have hlen := hfull i (List.mem_range.mp hi)
    have : t.witness i ≠ [] := by
      intro hnil
      rw [hnil] at hlen
      simp at hlen
      omega
    simp [List.isEmpty_iff, this]

/-- Witness for C9 (amended) on `tFull` (`N_REL = 1`, `N = 2`, domain
size 1, every column holding one entry). -/
theorem padding_idempotent_on_full_witness :
    (0 < 1 ∧ 0 < tFull.domain_size) ∧
    tFull.pad_with_row 1 (fun _ => 9) = some (tFull, 0) ∧
    tFull.pad_with_zeros 2 = some (tFull, 0) ∧
    tFull.pad_dummy 1 = some (tFull, 0) :=
  ⟨by decide,
   padding_idempotent_on_full 1 2 tFull (fun _ => 9) (by decide) (by decide) (by decide)⟩

/-! ## Claim C10 -/

/-- C10: on a single `Trace` whose witness columns are all empty (with
`0 < N_REL`), `pad_dummy` reads index 0 of each relation column and panics
(modelled as `none`) instead of being a no-op returning 0; the empty-trace
guard exists only at the `DecomposedTrace` level, whose `pad_dummy`
returns 0 and leaves the decomposed trace untouched for a selector that is
not in circuit. -/
theorem single_trace_pad_dummy_panics_on_empty [Inhabited F]
    (nrel : Nat) (t : Trace F E L) (d : DecomposedTrace S F E L) (s : Fin S)
    (h0 : 0 < nrel) (hemp : ∀ i, t.witness i = []) (hds : d.trace s = some t) :
    t.pad_dummy nrel = none ∧ d.pad_dummy nrel s = some (d, 0) := by
  constructor
  · unfold Trace.pad_dummy
    rw [if_neg]
    intro hall
    have h := List.all_eq_true.mp hall 0 (List.mem_range.mpr h0)
    rw [hemp 0] at h
    simp at h
  · simp only [DecomposedTrace.pad_dummy, hds]
    rw [if_neg]
    rw [hemp 0]
    simp

/-- Witness for C10: the empty sub-trace of domain size 2 inside the
one-selector decomposed trace `dEmpty1`. -/
theorem single_trace_pad_dummy_panics_on_empty_witness :
    (0 < 1) ∧
    (Trace.init (F := Int) (E := Unit) (L := Unit) 2 [] []).pad_dummy 1 = none ∧
    dEmpty1.pad_dummy 1 0 = some (dEmpty1, 0) :=
  ⟨by decide,
   single_trace_pad_dummy_panics_on_empty 1 (Trace.init 2 [] []) dEmpty1 0
     (by decide) (fun _ => rfl) rfl⟩

/-! ## Claim C6 -/

/-- C6: for a selector of a `DecomposedTrace` whose sub-trace has all its
relation columns at the current row count `L ≤ domain_size` (and
`0 < N_REL`), `pad_with_row(selector, row)` does nothing and returns 0
when `L = 0`, and otherwise appends `row` exactly
`remaining = domain_size - L` times to every relation column (leaving all
other columns and all other selectors untouched) and returns
`remaining`. -/
theorem decomposed_pad_with_row_spec (nrel : Nat) (d : DecomposedTrace S F E L)
    (s : Fin S) (row : Nat → F) (t : Trace F E L) (L : Nat)
    (h0 : 0 < nrel) (hds : d.trace s = some t)
    (hL : ∀ i, i < nrel → (t.witness i).length = L) (hle : L ≤ t.domain_size) :
    (L = 0 → d.pad_with_row nrel s row = some (d, 0)) ∧
    (L ≠ 0 → ∃ d2 u, d.pad_with_row nrel s row = some (d2, t.domain_size - L) ∧
      d2.trace s = some u ∧
      (∀ i, i < nrel →
        u.witness i = t.witness i ++ List.replicate (t.domain_size - L) (row i)) ∧
      (∀ i, ¬ i < nrel → u.witness i = t.witness i) ∧
      (∀ s2, s2 ≠ s → d2.trace s2 = d.trace s2)) := by
  constructor
  · intro hL0
    simp only [DecomposedTrace.pad_with_row, hds]
    rw [if_neg]
    simp [hL 0 h0, hL0]
  · intro hL0
    obtain ⟨u, hu, _, huw⟩ := pad_with_row_spec nrel t row L h0 hL hle
    refine ⟨{ d with trace := Function.update d.trace s (some u) }, u, ?_, ?_, ?_, ?_, ?_⟩
    · simp only [DecomposedTrace.pad_with_row, hds]
      rw [if_pos (by rw [hL 0 h0]; exact hL0), hu]
      rfl
    · exact Function.update_same s (some u) d.trace
    · intro i hi
      rw [huw i, if_pos hi]
    · intro i hi
      rw [huw i, if_neg hi]
    · intro s2 hs2
      exact Function.update_noteq hs2 (some u) d.trace

/-- Witness for C6 on `dHalf` (`N_REL = 1`, one selector, domain size 2,
one stored row, so `L = 1` and `remaining = 1`). -/
theorem decomposed_pad_with_row_spec_witness :
    (0 < 1 ∧ dHalf.trace 0 = some tHalf ∧ 1 ≤ tHalf.domain_size) ∧
    ((1 = 0 → dHalf.pad_with_row 1 0 (fun _ => 9) = some (dHalf, 0)) ∧
     (1 ≠ 0 → ∃ d2 u,
       dHalf.pad_with_row 1 0 (fun _ => 9) = some (d2, tHalf.domain_size - 1) ∧
       d2.trace 0 = some u ∧
       (∀ i, i < 1 →
         u.witness i = tHalf.witness i ++ List.replicate (tHalf.domain_size - 1) 9) ∧
       (∀ i, ¬ i < 1 → u.witness i = tHalf.witness i) ∧
       (∀ s2, s2 ≠ 0 → d2.trace s2 = dHalf.trace s2))) :=
  ⟨⟨by decide, rfl, by decide⟩,
   decomposed_pad_with_row_spec 1 dHalf 0 (fun _ => 9) tHalf 1
     (by decide) rfl (by decide) (by decide)⟩

/-! ## Claim C4 -/

/-- C4: after `set_selector_column(s, k)` on selector `s`'s sub-trace
(selector present, `N_REL + S ≤ N` so that every selector's column index
is in range), every selector-column index `i ∈ [N_REL, N)` gains exactly
`k` freshly appended entries: the column at index `N_REL + index_of(s)`
reads the multiplicative identity on all `k` of them and every other
selector column reads the additive identity on all `k`; relation columns
and the other selectors' sub-traces are untouched. -/
theorem set_selector_column_one_hot [Zero F] [One F] (nrel N : Nat)
    (d : DecomposedTrace S F E L) (s : Fin S) (k : Nat) (t : Trace F E L)
    (hds : d.trace s = some t) (hSN : nrel + S ≤ N) :
    ∃ d2 u, d.set_selector_column nrel N (selectorIndex nrel) s k = some d2 ∧
      d2.trace s = some u ∧
      (∀ i, nrel ≤ i → i < N →
        u.witness i = t.witness i ++
          List.replicate k (if i = nrel + s.val then (1 : F) else 0)) ∧
      u.witness (nrel + s.val) = t.witness (nrel + s.val) ++ List.replicate k (1 : F) ∧
      (∀ i, nrel ≤ i → i < N → i ≠ nrel + s.val →
        u.witness i = t.witness i ++ List.replicate k (0 : F)) ∧
      (∀ i, i < nrel → u.witness i = t.witness i) ∧
      (∀ s2, s2 ≠ s → d2.trace s2 = d.trace s2) := by
  have hsval : nrel + s.val < N := by
    have := s.isLt
    omega
  refine ⟨{ d with trace :=
      Function.update d.trace s (some (t.setSelectorCols nrel N (selectorIndex nrel s) k)) },
    t.setSelectorCols nrel N (selectorIndex nrel s) k, ?_, ?_, ?_, ?_, ?_, ?_, ?_⟩
  · simp only [DecomposedTrace.set_selector_column, hds, Option.map_some']
  · exact Function.update_same s _ d.trace
  · intro i h1 h2
    simp only [Trace.setSelectorCols, selectorIndex]
    rw [if_pos ⟨h1, h2⟩]
  · simp only [Trace.setSelectorCols, selectorIndex]
    rw [if_pos ⟨Nat.le_add_right nrel s.val, hsval⟩]
    simp
  · intro i h1 h2 hne
    simp only [Trace.setSelectorCols, selectorIndex]
    rw [if_pos ⟨h1, h2⟩, if_neg hne]
  · intro i hi
    simp only [Trace.setSelectorCols]
    rw [if_neg]
    intro hcon
    omega
  · intro s2 hs2
    exact Function.update_noteq hs2 _ d.trace

/-- Witness for C4 on `dEmpty2` (`N_REL = 1`, `S = 2`, `N = 3`, selector 1,
two appended rows): column `1 + 1 = 2` reads ones, column 1 reads zeros. -/
theorem set_selector_column_one_hot_witness :
    (dEmpty2.trace 1 = some (Trace.init 4 [] []) ∧ 1 + 2 ≤ 3) ∧
    (∃ d2 u, dEmpty2.set_selector_column 1 3 (selectorIndex 1) 1 2 = some d2 ∧
      d2.trace 1 = some u ∧
      (∀ i, 1 ≤ i → i < 3 →
        u.witness i = (Trace.init (F := Int) (E := Unit) (L := Unit) 4 [] []).witness i ++
          List.replicate 2 (if i = 1 + (1 : Fin 2).val then (1 : Int) else 0)) ∧
      u.witness (1 + (1 : Fin 2).val) =
        (Trace.init (F := Int) (E := Unit) (L := Unit) 4 [] []).witness (1 + (1 : Fin 2).val)
          ++ List.replicate 2 (1 : Int) ∧
      (∀ i, 1 ≤ i → i < 3 → i ≠ 1 + (1 : Fin 2).val →
        u.witness i = (Trace.init (F := Int) (E := Unit) (L := Unit) 4 [] []).witness i ++
          List.replicate 2 (0 : Int)) ∧
      (∀ i, i < 1 →
        u.witness i = (Trace.init (F := Int) (E := Unit) (L := Unit) 4 [] []).witness i) ∧
      (∀ s2, s2 ≠ 1 → d2.trace s2 = dEmpty2.trace s2)) :=
  ⟨⟨rfl, by decide⟩,
   set_selector_column_one_hot 1 3 dEmpty2 1 2 (Trace.init 4 [] []) rfl (by decide)⟩

/-! ## Claim C1 -/

/-- C1: evaluation at the failing input `dOneUsed` (selector 0 pushed
once, selector 1 never pushed, domain size 2).  The keccak
`pad_witnesses` behaves as the claim says: the used selector is padded to
`domain_size` rows via `pad_dummy`, the unused one keeps its all-empty
columns and no error occurs.  The mips `pad_witnesses`, however, calls the
single-table `pad_dummy` without the `in_circuit` guard, so on the unused
selector it reads row 0 of an empty relation column and panics (modelled
as `none`) — contradicting both the claim and the code's own
documentation of `pad_dummy` ("It only tries to pad witnesses which are
non empty"), which the keccak twin honours. -/
theorem mips_pad_witnesses_panics_on_unused_selector :
    dOneUsed.in_circuit 0 = some true ∧
    dOneUsed.in_circuit 1 = some false ∧
    mips.pad_witnesses 1 dOneUsed = none ∧
    ∃ d2, keccak.pad_witnesses 1 dOneUsed = some d2 ∧
      d2.number_of_rows 0 = some 2 ∧
      d2.trace 1 = some (Trace.init 2 [] []) :=
  ⟨rfl, rfl, rfl, ⟨_, rfl, by decide, rfl⟩⟩

/-! ## Claim C5 -/

/-- C5: for a selector present in the decomposed trace,
`to_folding_pair` absorbs the `N` column commitments into the transcript
strictly in column order (the final absorption state is the left fold of
`absorb_commitment` over the commitments of columns `0, …, N-1` in
order), then draws exactly four scalar challenges in the fixed order
`beta`, `gamma`, `joint_combiner`, `alpha`, and returns an instance
carrying the `N` first-chunk commitments in column order, the challenge
triple `(beta, gamma, joint_combiner)`, the alpha-powers structure seeded
by `alpha`, and a blinder equal to the multiplicative identity, together
with the witness made of the per-column evaluation tables. -/
theorem to_folding_pair_transcript_protocol [One F] (N : Nat)
    (absorb_commitment : Sg → Comm → Sg) (challenge : Sg → F × Sg)
    (commit_evaluations : List F → Comm) (get_first_chunk : Comm → G)
    (d : DecomposedTrace S F E L) (s : Fin S) (sp : Sg) (t : Trace F E L)
    (hds : d.trace s = some t) :
    ∃ inst fw spFinal,
      DecomposedTrace.to_folding_pair N absorb_commitment challenge commit_evaluations
          get_first_chunk d s sp = some (inst, fw, spFinal) ∧
      inst.commitments =
        ((List.range N).map fun i => commit_evaluations (t.witness i)).map get_first_chunk ∧
      inst.challenges.1 =
        (challenge (((List.range N).map fun i => commit_evaluations (t.witness i)).foldl
          absorb_commitment sp)).1 ∧
      inst.challenges.2.1 =
        (challenge (challenge (((List.range N).map fun i =>
          commit_evaluations (t.witness i)).foldl absorb_commitment sp)).2).1 ∧
      inst.challenges.2.2 =
        (challenge (challenge (challenge (((List.range N).map fun i =>
          commit_evaluations (t.witness i)).foldl absorb_commitment sp)).2).2).1 ∧
      inst.alphas.seed =
        (challenge (challenge (challenge (challenge (((List.range N).map fun i =>
          commit_evaluations (t.witness i)).foldl absorb_commitment sp)).2).2).2).1 ∧
      spFinal =
        (challenge (challenge (challenge (challenge (((List.range N).map fun i =>
          commit_evaluations (t.witness i)).foldl absorb_commitment sp)).2).2).2).2 ∧
      inst.blinder = 1 ∧
      fw.witness = fun i => t.witness i := by
  simp only [DecomposedTrace.to_folding_pair, hds]
  refine ⟨_, _, _, rfl, ?_, ?_, ?_, ?_, ?_, ?_, ?_, ?_⟩ <;> rfl

/-- Witness for C5: a one-column, one-selector trace with a concrete
sponge (`Sg := List Int`, absorb appends, challenge returns the running
sum), `commit` prepending a tag and `get_first_chunk` taking the head. -/
theorem to_folding_pair_transcript_protocol_witness :
    (dQuarter.trace 0 = some tQuarter) ∧
    (∃ inst fw spFinal,
      DecomposedTrace.to_folding_pair 1 (fun (sg : List Int) (c : List Int) => sg ++ c)
          (fun sg => (sg.sum, (0 : Int) :: sg)) (fun l => 1 :: l) (fun c => c.headD 0)
          dQuarter 0 [] = some (inst, fw, spFinal) ∧
      inst.commitments =
        ((List.range 1).map fun i => (1 : Int) :: tQuarter.witness i).map
          (fun c => c.headD 0) ∧
      inst.challenges.1 =
        ((fun (sg : List Int) => (sg.sum, (0 : Int) :: sg))
          (((List.range 1).map fun i => (1 : Int) :: tQuarter.witness i).foldl
            (fun sg c => sg ++ c) [])).1 ∧
      inst.challenges.2.1 =
        ((fun (sg : List Int) => (sg.sum, (0 : Int) :: sg))
          ((fun (sg : List Int) => (sg.sum, (0 : Int) :: sg))
            (((List.range 1).map fun i => (1 : Int) :: tQuarter.witness i).foldl
              (fun sg c => sg ++ c) [])).2).1 ∧
      inst.challenges.2.2 =
        ((fun (sg : List Int) => (sg.sum, (0 : Int) :: sg))
          ((fun (sg : List Int) => (sg.sum, (0 : Int) :: sg))
            ((fun (sg : List Int) => (sg.sum, (0 : Int) :: sg))
              (((List.range 1).map fun i => (1 : Int) :: tQuarter.witness i).foldl
                (fun sg c => sg ++ c) [])).2).2).1 ∧
      inst.alphas.seed =
        ((fun (sg : List Int) => (sg.sum, (0 : Int) :: sg))
          ((fun (sg : List Int) => (sg.sum, (0 : Int) :: sg))
            ((fun (sg : List Int) => (sg.sum, (0 : Int) :: sg))
              ((fun (sg : List Int) => (sg.sum, (0 : Int) :: sg))
                (((List.range 1).map fun i => (1 : Int) :: tQuarter.witness i).foldl
                  (fun sg c => sg ++ c) [])).2).2).2).1 ∧
      spFinal =
        ((fun (sg : List Int) => (sg.sum, (0 : Int) :: sg))
          ((fun (sg : List Int) => (sg.sum, (0 : Int) :: sg))
            ((fun (sg : List Int) => (sg.sum, (0 : Int) :: sg))
              ((fun (sg : List Int) => (sg.sum, (0 : Int) :: sg))
                (((List.range 1).map fun i => (1 : Int) :: tQuarter.witness i).foldl
                  (fun sg c => sg ++ c) [])).2).2).2).2 ∧
      inst.blinder = 1 ∧
      fw.witness = fun i => tQuarter.witness i) :=
  ⟨rfl,
   to_folding_pair_transcript_protocol 1 (fun sg c => sg ++ c)
     (fun sg => (sg.sum, (0 : Int) :: sg)) (fun l => 1 :: l) (fun c => c.headD 0)
     dQuarter 0 [] tQuarter rfl⟩

/-! ## Claim C7 -/

/-- C7: `to_folding_pair` does not enforce fullness: for a selector whose
sub-trace has fewer than `domain_size` rows it still returns an
`(instance, witness)` pair, and the returned witness's evaluation tables
have one entry per stored row — in particular fewer than `domain_size`
evaluations. -/
theorem to_folding_pair_no_fullness_check [One F] (N : Nat)
    (absorb_commitment : Sg → Comm → Sg) (challenge : Sg → F × Sg)
    (commit_evaluations : List F → Comm) (get_first_chunk : Comm → G)
    (d : DecomposedTrace S F E L) (s : Fin S) (sp : Sg) (t : Trace F E L)
    (hds : d.trace s = some t) (hlt : (t.witness 0).length < t.domain_size) :
    ∃ inst fw spFinal,
      DecomposedTrace.to_folding_pair N absorb_commitment challenge commit_evaluations
          get_first_chunk d s sp = some (inst, fw, spFinal) ∧
      (∀ i, (fw.witness i).length = (t.witness i).length) ∧
      (fw.witness 0).length < t.domain_size := by
  simp only [DecomposedTrace.to_folding_pair, hds]
  exact ⟨_, _, _, rfl, fun i => rfl, hlt⟩

/-- Witness for C7 on `dQuarter`: one stored row, domain size 4. -/
theorem to_folding_pair_no_fullness_check_witness :
    (dQuarter.trace 0 = some tQuarter ∧ (tQuarter.witness 0).length < tQuarter.domain_size) ∧
    (∃ inst fw spFinal,
      DecomposedTrace.to_folding_pair 1 (fun (sg : List Int) (c : List Int) => sg ++ c)
          (fun sg => (sg.sum, (0 : Int) :: sg)) (fun l => 1 :: l) (fun c => c.headD 0)
          dQuarter 0 [] = some (inst, fw, spFinal) ∧
      (∀ i, (fw.witness i).length = (tQuarter.witness i).length) ∧
      (fw.witness 0).length < tQuarter.domain_size) :=
  ⟨⟨rfl, by decide⟩,
   to_folding_pair_no_fullness_check 1 (fun sg c => sg ++ c)
     (fun sg => (sg.sum, (0 : Int) :: sg)) (fun l => 1 :: l) (fun c => c.headD 0)
     dQuarter 0 [] tQuarter rfl (by decide)⟩

/-! ## Claim C8 -/

/-- C8 counterexample: in `dNeverPushed` the only selector was never
pushed to — all its witness columns are empty and `in_circuit` is false —
yet the mapping returned by `folding_constraints` does contain an entry
for it (its constraint list rewritten through the transform), contradicting
the claim that the folding outputs contain no entry for such a selector. -/
theorem folding_constraints_unused_selector_cex :
    (∀ i, ((Trace.init (F := Int) (E := Nat) (L := Unit) 4 [7] []).witness i) = []) ∧
    dNeverPushed.in_circuit 0 = some false ∧
    dNeverPushed.folding_constraints (fun e => e + 1) 0 = some [8] ∧
    dNeverPushed.folding_constraints (fun e => e + 1) 0 ≠ none :=
  ⟨fun _ => rfl, rfl, rfl, by decide⟩

/-- C8 (amended): `folding_constraints` returns an entry for every
selector present in the decomposed trace — including selectors absent
from witness activity (all columns empty, `in_circuit == false`) — namely
its stored constraints rewritten through the folding transform; the
exclusion of unused selectors from folding is the caller's
responsibility, not `folding_constraints`'. -/
theorem folding_constraints_entry_for_every_selector (toFolding : E → E2)
    (d : DecomposedTrace S F E L) (s : Fin S) (t : Trace F E L)
    (hds : d.trace s = some t) :
    d.folding_constraints toFolding s = some (t.constraints.map toFolding) := by
  simp only [DecomposedTrace.folding_constraints, hds, Option.map_some']

/-- Witness for C8 (amended) on `dNeverPushed`. -/
theorem folding_constraints_entry_for_every_selector_witness :
    (dNeverPushed.trace 0 = some (Trace.init 4 [7] [])) ∧
    dNeverPushed.folding_constraints (fun e => e + 1) 0 =
      some ((Trace.init (F := Int) (E := Nat) (L := Unit) 4 [7] []).constraints.map
        (fun e => e + 1)) :=
  ⟨rfl,
   folding_constraints_entry_for_every_selector (fun e => e + 1) dNeverPushed 0
     (Trace.init 4 [7] []) rfl⟩

end TraceRS
